import Mathlib

/-!
Shallow embedding of the screening-pipeline core of the AI_validation
repository: the tokenizer and similarity scorer of
`app/services/pipeline/steps/matrix_match.py`, the rule-matching step of the
same file, the two-list aggregator of `app/services/two_list.py`, the
retrieval step of `app/services/pipeline/steps/patent_retrieve.py`, and the
run ledger of `app/services/pipeline/runner.py`.  Text is modelled as
`List Char`; floating-point similarity scores are modelled exactly by the
pair (|A∩B|, |A|·|B|) whose real value is |A∩B| / sqrt (|A|·|B|); database
tables are modelled as lists of rows.
-/

namespace AIV

/-- A piece of text, modelled as its list of characters. -/
abbrev Str := List Char

/-- The characters of a Lean string literal, used to write the Python
string literals of the source. -/
def str (s : String) : Str := s.data

/-- Python's `\s` whitespace class, restricted to the whitespace characters
that can reach this system (ASCII whitespace, NBSP and the ideographic
space); used by `re.sub(r"\s+", " ", t)` and `.strip()`. -/
def isSpaceChar (c : Char) : Bool :=
  c = ' ' || c = '\t' || c = '\n' || c = '\r' ||
  c = Char.ofNat 0x0b || c = Char.ofNat 0x0c ||
  c = Char.ofNat 0xa0 || c = Char.ofNat 0x3000

/-- Python `str.lower()` restricted to ASCII letters (identity on every
other character that can reach the tokenizer: digits, punctuation and the
caseless CJK ranges). -/
def pyLower (c : Char) : Char :=
  if 'A' ≤ c ∧ c ≤ 'Z' then Char.ofNat (c.toNat + 32) else c

/-- The chain of `str.replace` calls of `_normalize_text`
(`matrix_match.py:226-228`): each call replaces one full-width character by
one half-width character, so the chain is a single character map. -/
def replaceChar (c : Char) : Char :=
  if c = '（' then '(' else if c = '）' then ')'
  else if c = '，' then ',' else if c = '．' then '.'
  else if c = '・' then ' '
  else if c = '－' then '-' else if c = '―' then '-'
  else if c = '−' then '-' else c

/-- Sends every whitespace-class character to a plain space; the first half
of `re.sub(r"\s+", " ", t)`. -/
def toSpace (c : Char) : Char := if isSpaceChar c then ' ' else c

/-- Collapses runs of consecutive spaces to a single space; together with
`toSpace` this is `re.sub(r"\s+", " ", t)`. -/
def squeezeSpaces : List Char → List Char
  | [] => []
  | [c] => [c]
  | a :: b :: rest =>
    if a = ' ' ∧ b = ' ' then squeezeSpaces (b :: rest)
    else a :: squeezeSpaces (b :: rest)

/-- Python `str.strip()`: drop whitespace from both ends. -/
def pyStrip (l : Str) : Str :=
  ((l.dropWhile (fun c => isSpaceChar c)).reverse.dropWhile
    (fun c => isSpaceChar c)).reverse

/-- `_normalize_text` (`matrix_match.py:222-230`): lowercase, fold the
full-width punctuation to half-width, collapse whitespace, strip. -/
def normalize_text (s : Str) : Str :=
  pyStrip (squeezeSpaces (((s.map pyLower).map replaceChar).map toSpace))

/-- The character class of `_LATIN_RE = [A-Za-z0-9]+`. -/
def isLatinChar (c : Char) : Bool :=
  ('a' ≤ c && c ≤ 'z') || ('A' ≤ c && c ≤ 'Z') || ('0' ≤ c && c ≤ '9')

/-- The character class of `_JP_BLOCK_RE = [぀-ヿ一-鿿]+`. -/
def isJpChar (c : Char) : Bool :=
  (0x3040 ≤ c.toNat && c.toNat ≤ 0x30ff) ||
  (0x4e00 ≤ c.toNat && c.toNat ≤ 0x9fff)

/-- The maximal runs of characters satisfying `p`, in order (`cur` holds
the reversed run being accumulated): the semantics of `re.findall` /
`re.finditer` over a single character class. -/
def runsByAux (p : Char → Bool) (cur : List Char) : List Char → List (List Char)
  | [] => if cur = [] then [] else [cur.reverse]
  | c :: cs =>
    if p c then runsByAux p (c :: cur) cs
    else if cur = [] then runsByAux p [] cs
    else cur.reverse :: runsByAux p [] cs

/-- The maximal runs of characters satisfying `p`, in order. -/
def runsBy (p : Char → Bool) (l : List Char) : List (List Char) :=
  runsByAux p [] l

/-- `_ngrams` (`matrix_match.py:233-236`): all contiguous substrings of
length `n`. -/
def ngrams (s : List Char) (n : ℕ) : List (List Char) :=
  if s = [] ∨ s.length < n then []
  else (List.range (s.length - n + 1)).map (fun i => (s.drop i).take n)

/-- A token, as produced by `_tokenize`. -/
abbrev Tok := List Char

/-- The `seen`/`out` deduplication loop at the end of `_tokenize`
(`matrix_match.py:252-258`): skip elements already seen, keep first
occurrences in order. -/
def dedupAux {α : Type} [DecidableEq α] (seen : List α) : List α → List α
  | [] => []
  | x :: xs => if x ∈ seen then dedupAux seen xs else x :: dedupAux (x :: seen) xs

/-- First-occurrence deduplication (the loop started with an empty `seen`
set). -/
def dedupKeepFirst {α : Type} [DecidableEq α] (l : List α) : List α :=
  dedupAux [] l

/-- `_tokenize` (`matrix_match.py:239-258`): normalize, extract the Latin
word tokens and, per Japanese block, the 2- and 3-character n-grams, then
drop empty tokens and deduplicate keeping first occurrences. -/
def tokenize (text : Str) : List Tok :=
  let t := normalize_text text
  if t = [] then []
  else
    dedupKeepFirst
      ((runsBy isLatinChar t ++
        (runsBy isJpChar t).flatMap (fun b => ngrams b 2 ++ ngrams b 3)).filter
        (fun x => x ≠ []))

/-- The composite character map `toSpace ∘ replaceChar ∘ pyLower` that
`_normalize_text` applies pointwise before collapsing whitespace. -/
def normChar (c : Char) : Char := toSpace (replaceChar (pyLower c))

/-- The no-two-adjacent-spaces invariant established by `squeezeSpaces`. -/
def noTwoSp (a b : Char) : Prop := ¬(a = ' ' ∧ b = ' ')

/-! ### Similarity scorer (`_binary_cosine`, `matrix_match.py:261-271`) -/

/-- The exact value of the float `len(inter) / ((len(A) * len(B)) ** 0.5)`:
`inter` is |A ∩ B| and `denSq` is |A| · |B|, so the score's real value is
`inter / sqrt denSq`.  The literal `0.0` returned for an empty side is
represented as `⟨0, 1⟩`. -/
structure ScoreRep where
  inter : ℕ
  denSq : ℕ
deriving DecidableEq

/-- The real value of a represented score. -/
noncomputable def ScoreRep.val (s : ScoreRep) : ℝ := s.inter / Real.sqrt s.denSq

/-- `val s ≤ val t`, expressed without square roots (cross-multiplied);
agrees with the float comparison whenever both `denSq` are positive, which
holds for every score `_binary_cosine` produces (`ScoreRep.le_iff_val`). -/
def ScoreRep.le (s t : ScoreRep) : Prop :=
  s.inter ^ 2 * t.denSq ≤ t.inter ^ 2 * s.denSq

/-- `val s < val t`, cross-multiplied (`score > g["max_score"]` in
`two_list.py:223`). -/
def ScoreRep.lt (s t : ScoreRep) : Prop :=
  s.inter ^ 2 * t.denSq < t.inter ^ 2 * s.denSq

/-- `val s = val t`, cross-multiplied. -/
def ScoreRep.eqv (s t : ScoreRep) : Prop :=
  s.inter ^ 2 * t.denSq = t.inter ^ 2 * s.denSq

/-- The float comparison `threshold <= score` (`score >= threshold`,
`matrix_match.py:407`) against a rational threshold, without square
roots. -/
def ScoreRep.geQ (t : ℚ) (s : ScoreRep) : Prop :=
  t ≤ 0 ∨ t ^ 2 * (s.denSq : ℚ) ≤ (s.inter : ℚ) ^ 2

/-- The float comparison `score <= t` (`score <= 0.0`,
`matrix_match.py:403`) against a rational bound, without square roots. -/
def ScoreRep.leQ (s : ScoreRep) (t : ℚ) : Prop :=
  0 ≤ t ∧ (s.inter : ℚ) ^ 2 ≤ t ^ 2 * (s.denSq : ℚ)

instance : DecidableRel ScoreRep.le := fun _ _ => Nat.decLe _ _

instance : DecidableRel ScoreRep.lt := fun _ _ => Nat.decLt _ _

instance : DecidableRel ScoreRep.eqv := fun _ _ => Nat.decEq _ _

instance (t : ℚ) (s : ScoreRep) : Decidable (ScoreRep.geQ t s) :=
  decidable_of_iff
    (t.num ≤ 0 ∨ t.num ^ 2 * (s.denSq : ℤ) ≤ (s.inter : ℤ) ^ 2 * (t.den : ℤ) ^ 2) (by
      unfold ScoreRep.geQ
      apply or_congr
      · exact Rat.num_nonpos
      · set p := t.num
        set q := t.den
        have ht : t = (p : ℚ) / (q : ℚ) := (Rat.num_div_den t).symm
        have hqpos : (0 : ℚ) < (q : ℚ) := by exact_mod_cast t.pos
        rw [ht, div_pow, div_mul_eq_mul_div, div_le_iff₀ (pow_pos hqpos 2)]
        exact_mod_cast Iff.rfl)

instance (s : ScoreRep) (t : ℚ) : Decidable (ScoreRep.leQ s t) :=
  decidable_of_iff
    (0 ≤ t.num ∧ (s.inter : ℤ) ^ 2 * (t.den : ℤ) ^ 2 ≤ t.num ^ 2 * (s.denSq : ℤ)) (by
      unfold ScoreRep.leQ
      apply and_congr
      · exact Rat.num_nonneg
      · set p := t.num
        set q := t.den
        have ht : t = (p : ℚ) / (q : ℚ) := (Rat.num_div_den t).symm
        have hqpos : (0 : ℚ) < (q : ℚ) := by exact_mod_cast t.pos
        rw [ht, div_pow, div_mul_eq_mul_div, le_div_iff₀ (pow_pos hqpos 2)]
        exact_mod_cast Iff.rfl)

/-- The sort key `(-len(x), x)` of the matched-token ordering
(`matrix_match.py:270`): descending length, ties broken by ascending
code-point lexicographic order. -/
def tokLe (x y : Tok) : Prop :=
  y.length < x.length ∨ (x.length = y.length ∧ x ≤ y)

instance : DecidableRel tokLe := fun _ _ =>
  inferInstanceAs (Decidable (_ ∨ _))

/-- `_binary_cosine` (`matrix_match.py:261-271`): both token lists are
taken as sets; if either is empty the result is score 0 and no matched
tokens; else the score is |A∩B| / sqrt (|A|·|B|) and the matched tokens are
the intersection sorted by `(-len, lex)` and truncated to 40.  Python's
`set` is modelled by first-occurrence deduplication and `sorted` by the
stable `List.insertionSort` (the sort key is a total order on the
deduplicated intersection, so enumeration order of the set is
irrelevant). -/
def binary_cosine (a_tokens b_tokens : List Tok) : ScoreRep × List Tok :=
  let A := dedupKeepFirst a_tokens
  let B := dedupKeepFirst b_tokens
  if A = [] ∨ B = [] then (⟨0, 1⟩, [])
  else
    let inter := A.filter (fun x => x ∈ B)
    let matched := (List.insertionSort tokLe inter).take 40
    (⟨inter.length, A.length * B.length⟩, matched)

/-! ### Rule Matching Engine (`step_matrix_match`, `matrix_match.py:282-463`) -/

/-- A `UsageRequirement` row, restricted to the columns the matching,
retrieval and two-list code reads (`None` text/source modelled as `""`). -/
structure UsageReq where
  id : ℕ
  transaction_id : ℕ
  source : Str
  text : Str
deriving DecidableEq

/-- A `MatrixRule` row (nullable text columns modelled as `""`; `version`
kept optional because `_get_item_key` distinguishes it from `""` only by
mapping both to `""`). -/
structure MatrixRule where
  id : ℕ
  regime : Str
  list_name : Str
  item_no : Str
  title : Str
  requirement_text : Str
  usage_criteria_text : Str
  tech_criteria_text : Str
  notes : Str
  version : Option Str
deriving DecidableEq

/-- A persisted `MatrixMatch` row.  `id` is the storage-assigned surrogate
key (the step itself persists rows without choosing it; modelled as 0 at
insertion).  Of `evidence_json` only `matched_tokens` is modelled; its
other entries are display snippets of the same row fields. -/
structure MatrixMatch where
  id : ℕ
  ai_run_id : ℕ
  usage_requirement_id : ℕ
  matrix_rule_id : ℕ
  match_type : Str
  match_score : ScoreRep
  decision : Str
  matched_tokens : List Tok
deriving DecidableEq

/-- Python `str.lower()` over a whole string. -/
def pyLowerStr (s : Str) : Str := s.map pyLower

/-- The concatenated rule text of `matrix_match.py:370-379`: strip each
part, keep the non-empty ones, join with newlines. -/
def rule_text (r : MatrixRule) : Str :=
  List.intercalate (str "\n")
    ([pyStrip r.title, pyStrip r.requirement_text, pyStrip r.usage_criteria_text,
      pyStrip r.tech_criteria_text, pyStrip r.notes, pyStrip r.item_no,
      pyStrip r.list_name].filter (fun p => p ≠ []))

/-- The rule token packs of `matrix_match.py:368-382`: tokenize each
rule's concatenated text once, keeping only rules with at least one
token.  (The cached `rule_text` string itself is used only in display
snippets and is not carried.) -/
def rule_pack (rules : List MatrixRule) : List (MatrixRule × List Tok) :=
  rules.filterMap (fun r =>
    let rtoks := tokenize (rule_text r)
    if rtoks = [] then none else some (r, rtoks))

/-- The descending stable sort order of
`scored.sort(key=lambda x: x[0], reverse=True)` (`matrix_match.py:398`):
an element may stay before another iff its score is not smaller. -/
def scoredLe (x y : (ScoreRep × List Tok) × MatrixRule) : Prop :=
  ScoreRep.le y.1.1 x.1.1

instance : DecidableRel scoredLe := fun _ _ =>
  inferInstanceAs (Decidable (ScoreRep.le _ _))

/-- The rows `step_matrix_match` persists for one usage requirement
(`matrix_match.py:387-446`): tokenize the stripped text (skip if empty),
score against every rule pack, sort by score descending (stable), keep the
top `top_k`, drop scores ≤ 0, and build one row per kept candidate. -/
def match_rows_for_usage (threshold : ℚ) (top_k run_id : ℕ)
    (pack : List (MatrixRule × List Tok)) (u : UsageReq) : List MatrixMatch :=
  let ut := pyStrip u.text
  let utoks := tokenize ut
  if utoks = [] then []
  else
    let scored := pack.map (fun p => (binary_cosine utoks p.2, p.1))
    let keep := (List.insertionSort scoredLe scored).take top_k
    (keep.filter (fun c => ¬ ScoreRep.leQ c.1.1 0)).map (fun c =>
      { id := 0
        ai_run_id := run_id
        usage_requirement_id := u.id
        matrix_rule_id := c.2.id
        match_type := if pyLowerStr u.source = str "core" then str "core_hit"
          else str "expanded_hit"
        match_score := c.1.1
        decision := if ScoreRep.geQ threshold c.1.1 then str "hit" else str "maybe"
        matched_tokens := c.1.2 })

/-- All rows `step_matrix_match` inserts for a run: the usage requirements
of the transaction against the rule packs of the regime. -/
def inserted_rows (threshold : ℚ) (regime : Str) (top_k_per_usage : ℕ)
    (transaction_id run_id : ℕ) (usages : List UsageReq)
    (rules : List MatrixRule) : List MatrixMatch :=
  let top_k := max top_k_per_usage 1
  let pack := rule_pack (rules.filter (fun r => r.regime = regime))
  (usages.filter (fun u => u.transaction_id = transaction_id)).flatMap
    (match_rows_for_usage threshold top_k run_id pack)

/-- `step_matrix_match`'s effect on the `matrix_matches` table
(`matrix_match.py:321-448`): delete every row of this run id, then insert
the computed rows.  (The optional `matrix.json` ingest touches only
`matrix_rules`, which is an input here; the zero-usages and zero-rules
early returns coincide with inserting an empty row list.) -/
def step_matrix_match (threshold : ℚ) (regime : Str) (top_k_per_usage : ℕ)
    (transaction_id run_id : ℕ) (usages : List UsageReq)
    (rules : List MatrixRule) (existing : List MatrixMatch) : List MatrixMatch :=
  existing.filter (fun m => m.ai_run_id ≠ run_id) ++
    inserted_rows threshold regime top_k_per_usage transaction_id run_id usages rules

/-! ### Two-List Aggregator (`compute_two_lists`, `two_list.py:147-275`) -/

/-- `_get_item_key` (`two_list.py:36-39`): the rule identity key
`regime::item_no::version-or-empty`. -/
def get_item_key (r : MatrixRule) : Str :=
  r.regime ++ str "::" ++ r.item_no ++ str "::" ++ r.version.getD []

/-- One attempt to match the regex `q id q \s* : \s* q ([^q]+) q`
(`_ID_RE_1` / `_ID_RE_2`, `two_list.py:72-73`, with `q` the quote
character) at the head of the input; returns the captured id and the rest
of the input after the match. -/
def tryMatchId (q : Char) (l : List Char) : Option (Str × List Char) :=
  match l with
  | c1 :: 'i' :: 'd' :: c2 :: rest =>
    if c1 = q ∧ c2 = q then
      match rest.dropWhile (fun c => isSpaceChar c) with
      | ':' :: r2 =>
        match r2.dropWhile (fun c => isSpaceChar c) with
        | c3 :: r4 =>
          if c3 = q then
            let cap := r4.takeWhile (fun c => c ≠ q)
            match cap, r4.dropWhile (fun c => c ≠ q) with
            | [], _ => none
            | _, c4 :: r5 => if c4 = q then some (cap, r5) else none
            | _, [] => none
          else none
        | [] => none
      | _ => none
    else none
  | _ => none

/-- `re.findall` scanning for `tryMatchId`: try at every position from the
left, continue after each non-overlapping match.  `fuel` bounds the
recursion; with `fuel = l.length` the whole input is scanned (every step
consumes at least one character). -/
def scanIds (q : Char) : ℕ → List Char → List Str
  | 0, _ => []
  | _, [] => []
  | fuel + 1, c :: rest =>
    match tryMatchId q (c :: rest) with
    | some (cap, r) => cap :: scanIds q fuel r
    | none => scanIds q fuel rest

/-- `_extract_item_ids` (`two_list.py:76-96`): pull the quoted `id` values
out of a dict-ish `item_no` string, single-quote pattern first, double-quote
pattern as fallback, deduplicated keeping first occurrences. -/
def extract_item_ids (item_no : Str) : List Str :=
  if item_no = [] then []
  else
    let ids := scanIds (Char.ofNat 39) item_no.length item_no
    let ids := if ids = [] then scanIds '"' item_no.length item_no else ids
    dedupKeepFirst (ids.filter (fun x => x ≠ []))

/-- `_compact_item_label` (`two_list.py:99-105`). -/
def compact_item_label (r : MatrixRule) : Str :=
  let ids := extract_item_ids r.item_no
  if ids ≠ [] then List.intercalate (str " / ") ids
  else
    let s := pyStrip r.item_no
    s.take 80 ++ (if 80 < s.length then str "…" else [])

/-- The `_STOP` stop-word set (`two_list.py:109-113`; the Python set
literal repeats some entries, which a set collapses). -/
def STOP : List Str :=
  [str "する", str "して", str "した", str "として", str "ため", str "用途",
   str "用い", str "用の", str "に用", str "に用い", str "用いる", str "いる",
   str "に用いる", str "工程", str "使用", str "用", str "に", str "の",
   str "は", str "を", str "と"]

/-- `_compact_matched_tokens` (`two_list.py:116-144`): strip each matched
token, drop empties, one-character tokens and stop words, deduplicate
keeping first occurrences, and cut at `limit`. -/
def compact_matched_tokens (toks : List Tok) (limit : ℕ) : List Tok :=
  (dedupKeepFirst ((toks.map pyStrip).filter
    (fun t => t ≠ [] ∧ ¬(t.length ≤ 1) ∧ t ∉ STOP))).take limit

/-- The usage-requirement resolution of `two_list.py:198`: a falsy (zero)
usage-requirement id resolves to nothing, otherwise the usage map is
consulted (ids are unique in the table, so first match suffices). -/
def resolve_usage (usage_map : List UsageReq) (mm : MatrixMatch) : Option UsageReq :=
  if mm.usage_requirement_id = 0 then none
  else usage_map.find? (fun u => u.id = mm.usage_requirement_id)

/-- One `hit_record` (`two_list.py:207-220`).  The `threshold` and raw
`evidence` entries are display copies of evidence fields and are not
modelled. -/
structure HitRecord where
  matrix_match_id : ℕ
  usage_requirement_id : ℕ
  usage_source : Option Str
  usage_text : Str
  match_score : ScoreRep
  match_type : Str
  decision : Str
  matched_compact : List Tok
deriving DecidableEq

def make_hit_record (usage_map : List UsageReq) (mm : MatrixMatch) : HitRecord :=
  let ur := resolve_usage usage_map mm
  { matrix_match_id := mm.id
    usage_requirement_id := mm.usage_requirement_id
    usage_source := ur.map (fun u => u.source)
    usage_text := pyStrip ((ur.map (fun u => u.text)).getD [])
    match_score := mm.match_score
    match_type := mm.match_type
    decision := mm.decision
    matched_compact := compact_matched_tokens mm.matched_tokens 8 }

/-- The classification condition of `two_list.py:236-243`: a match counts
as core-sourced iff its lowered `match_type` is `core_hit` or its resolved
usage requirement has source `core`; every other match is appended to the
expanded side (the `expanded_hit` branch and the unknown-fallback branch
both do). -/
def is_core_hit (usage_map : List UsageReq) (mm : MatrixMatch) : Bool :=
  pyLowerStr mm.match_type = str "core_hit" ||
    (match resolve_usage usage_map mm with
     | some ur => ur.source = str "core"
     | none => false)

/-- One aggregated rule group (`two_list.py:177-196`). -/
structure Group where
  key : Str
  regime : Str
  rule_id : ℕ
  version : Option Str
  item_ids : List Str
  item_label : Str
  rule_summary : Str
  title : Str
  core_hits : List HitRecord
  expanded_hits : List HitRecord
  max_score : Option ScoreRep
  best_decision : Option Str
deriving DecidableEq

/-- The fresh group record of `two_list.py:178-196`, built from the first
row of the key. -/
def init_group (k : Str) (rule : MatrixRule) : Group :=
  { key := k
    regime := rule.regime
    rule_id := rule.id
    version := rule.version
    item_ids := extract_item_ids rule.item_no
    item_label := compact_item_label rule
    rule_summary := (pyStrip rule.requirement_text).take 160
    title := rule.title
    core_hits := []
    expanded_hits := []
    max_score := none
    best_decision := none }

/-- `two_list.py:222-224`: keep the strictly larger score. -/
def update_max (cur : Option ScoreRep) (s : ScoreRep) : Option ScoreRep :=
  match cur with
  | none => some s
  | some m => if ScoreRep.lt m s then some s else some m

/-- The decision priority map `{"hit": 2, "maybe": 1}` of `two_list.py:232`
(anything else 0). -/
def decision_priority (d : Str) : ℕ :=
  if d = str "hit" then 2 else if d = str "maybe" then 1 else 0

/-- `two_list.py:226-234`: a falsy (empty) decision is ignored; otherwise
the strictly higher-priority decision wins. -/
def update_best (cur : Option Str) (d : Str) : Option Str :=
  if d = [] then cur
  else
    match cur with
    | none => some d
    | some c => if decision_priority c < decision_priority d then some d else some c

/-- Folding one joined row into its group (`two_list.py:198-243`): build
the hit record, update the running maximum score and best decision, then
append the record to the core or expanded side. -/
def add_row (usage_map : List UsageReq) (g : Group) (row : MatrixMatch × MatrixRule) :
    Group :=
  let mm := row.1
  let hit := make_hit_record usage_map mm
  let g1 := { g with
    max_score := update_max g.max_score hit.match_score
    best_decision := update_best g.best_decision hit.decision }
  if is_core_hit usage_map mm then { g1 with core_hits := g1.core_hits ++ [hit] }
  else { g1 with expanded_hits := g1.expanded_hits ++ [hit] }

/-- The group of one key: `grouped.setdefault` creates the record from the
key's first row, then every row of the key is folded in, in row order. -/
def group_for (usage_map : List UsageReq) (k : Str)
    (rows : List (MatrixMatch × MatrixRule)) : Group :=
  match rows with
  | [] => init_group k ⟨0, [], [], [], [], [], [], [], [], none⟩
  | (_, rule) :: _ => rows.foldl (add_row usage_map) (init_group k rule)

/-- The grouping loop of `two_list.py:174-243`: Python's insertion-ordered
dict is modelled as the keys in first-occurrence order, each carrying the
subsequence of rows with that key. -/
def build_groups (usage_map : List UsageReq)
    (rows : List (MatrixMatch × MatrixRule)) : List Group :=
  (dedupKeepFirst (rows.map (fun rc => get_item_key rc.2))).map
    (fun k => group_for usage_map k (rows.filter (fun rc => get_item_key rc.2 = k)))

/-- Strict order of the primary sort key `-score if score is not None else
10**9` (`two_list.py:256-260`): a missing score sorts after every present
one (every representable score is below 10^9). -/
def score_sort_lt : Option ScoreRep → Option ScoreRep → Prop
  | some s, some t => ScoreRep.lt t s
  | some _, none => True
  | none, some _ => False
  | none, none => False

/-- Equality of the primary sort key. -/
def score_sort_eq : Option ScoreRep → Option ScoreRep → Prop
  | some s, some t => ScoreRep.eqv s t
  | none, none => True
  | _, _ => False

instance : DecidableRel score_sort_lt := fun a b => by
  cases a <;> cases b <;> simp only [score_sort_lt] <;> infer_instance

instance : DecidableRel score_sort_eq := fun a b => by
  cases a <;> cases b <;> simp only [score_sort_eq] <;> infer_instance

/-- The stable ascending sort order on groups used for both output lists
(`two_list.py:256-263`): by the tuple `(score_sort, item_label)`. -/
def group_le (g h : Group) : Prop :=
  score_sort_lt g.max_score h.max_score ∨
    (score_sort_eq g.max_score h.max_score ∧ g.item_label ≤ h.item_label)

instance : DecidableRel group_le := fun _ _ =>
  inferInstanceAs (Decidable (_ ∨ _))

/-- The `counts` object of the two-list output. -/
structure TwoListCounts where
  intersection : ℕ
  expanded_only : ℕ
  total_unique_items : ℕ
deriving DecidableEq

/-- The result of `compute_two_lists`. -/
structure TwoListResult where
  transaction_id : ℕ
  run_id : ℕ
  counts : TwoListCounts
  intersection : List Group
  expanded_only : List Group
  note : Option Str
deriving DecidableEq

/-- `compute_two_lists` (`two_list.py:147-275`) for a resolved run id,
over the joined `(MatrixMatch, MatrixRule)` rows of that run: empty rows
give the explicit empty structure with a note; otherwise the groups are
classified into Intersection (core and expanded hits) and Expanded-Only
(expanded hits without core hits) and both lists are sorted. -/
def compute_two_lists (usage_map : List UsageReq) (transaction_id run_id : ℕ)
    (rows : List (MatrixMatch × MatrixRule)) : TwoListResult :=
  if rows = [] then
    { transaction_id := transaction_id
      run_id := run_id
      counts := ⟨0, 0, 0⟩
      intersection := []
      expanded_only := []
      note := some (str "このrun_idでは matrix_matches が0件でした（用途要件とマトリクスの語彙が一致しない等）。") }
  else
    let gs := build_groups usage_map rows
    let inter := List.insertionSort group_le
      (gs.filter (fun g => g.core_hits ≠ [] ∧ g.expanded_hits ≠ []))
    let expOnly := List.insertionSort group_le
      (gs.filter (fun g => g.core_hits = [] ∧ g.expanded_hits ≠ []))
    { transaction_id := transaction_id
      run_id := run_id
      counts := ⟨inter.length, expOnly.length, gs.length⟩
      intersection := inter
      expanded_only := expOnly
      note := none }

/-! ### Retrieval Engine fallback (`step_patent_retrieve`,
`patent_retrieve.py:266-348`) -/

/-- A `Patent` row, reduced to its identifier: the retrieval step persists
only `patent_id` per result, and the embedding text never reaches the
persisted rows. -/
structure Patent where
  id : ℕ
deriving DecidableEq

/-- A persisted `PatentRetrieval` row. -/
structure PatentRetrieval where
  ai_run_id : ℕ
  usage_requirement_id : ℕ
  patent_id : ℕ
  score : ℚ
  why : Str
deriving DecidableEq

/-- The rows `step_patent_retrieve` inserts for one usage requirement
(`patent_retrieve.py:311-332`).  `search` abstracts
`_search_patents_faiss` (the embedding model and FAISS index are external
collaborators); an empty search result — empty index, empty corpus or no
hits — triggers the fallback `db.query(Patent).limit(top_k)` with score
0.0.  Every row, fallback or not, is stored with
`why="faiss_embedding_search"`. -/
def retrieve_rows_for_usage (search : Str → List (Patent × ℚ))
    (corpus : List Patent) (top_k run_id : ℕ) (u : UsageReq) :
    List PatentRetrieval :=
  let q := pyStrip u.text
  if q = [] then []
  else
    let results := search q
    let results := if results = [] then (corpus.take top_k).map (fun p => (p, 0))
      else results
    results.map (fun pr =>
      { ai_run_id := run_id
        usage_requirement_id := u.id
        patent_id := pr.1.id
        score := pr.2
        why := str "faiss_embedding_search" })

/-- `step_patent_retrieve`'s effect on the `patent_retrievals` table:
delete the run's old rows, then insert the retrieved (or fallback) rows
for every usage requirement of the transaction. -/
def step_patent_retrieve (search : Str → List (Patent × ℚ))
    (corpus : List Patent) (top_k transaction_id run_id : ℕ)
    (usages : List UsageReq) (existing : List PatentRetrieval) :
    List PatentRetrieval :=
  existing.filter (fun r => r.ai_run_id ≠ run_id) ++
    (usages.filter (fun u => u.transaction_id = transaction_id)).flatMap
      (retrieve_rows_for_usage search corpus top_k run_id)

/-! ### Run ledger (`runner.py`) -/

/-- An `AiRun` row, restricted to the columns `execute_step` writes
(`model_name`, `prompt_version`, `params` are opaque pass-through values;
timestamps are modelled as abstract ticks). -/
structure RunRec where
  id : ℕ
  transaction_id : ℕ
  run_type : Str
  status : Str
  error : Option Str
  started_at : ℕ
  finished_at : Option ℕ
deriving DecidableEq

/-- The database state seen by the runner: the run ledger plus the stage
data (`σ`), everything else abstracted. -/
structure PipeState (σ : Type) where
  runs : List RunRec
  store : σ

/-- `finalize_run_success` (`runner.py:44-47`). -/
def finalize_run_success (r : RunRec) (now : ℕ) : RunRec :=
  { r with status := str "success", finished_at := some now }

/-- `finalize_run_failed` (`runner.py:50-54`): status `failed`, finish
time, and the error message truncated to 8000 characters. -/
def finalize_run_failed (r : RunRec) (error : Str) (now : ℕ) : RunRec :=
  { r with
    status := str "failed"
    finished_at := some now
    error := some (error.take 8000) }

/-- Apply an update to the run with the given id. -/
def set_run (runs : List RunRec) (run_id : ℕ) (f : RunRec → RunRec) : List RunRec :=
  runs.map (fun r => if r.id = run_id then f r else r)

/-- `execute_step` (`runner.py:57-88`).  The run row is created and
committed in its own transaction (`run_id` is the storage-assigned key,
`now₀` the start tick); the stage function then runs inside a second
transactional boundary: on success its writes and the success marker
commit together, on failure its writes are rolled back (the pre-stage
store is kept), the failure marker with the truncated error is committed
separately, and the error is re-raised (returned as `.error`).  A stage
function is `storage → run_id → result-or-error`, with `transaction_id`
and `params` already applied. -/
def execute_step {σ ρ : Type} (step_fn : σ → ℕ → Except Str (σ × ρ))
    (transaction_id : ℕ) (run_type : Str) (st : PipeState σ)
    (run_id now₀ now₁ : ℕ) : Except Str (ℕ × ρ) × PipeState σ :=
  let newRun : RunRec :=
    { id := run_id
      transaction_id := transaction_id
      run_type := run_type
      status := str "running"
      error := none
      started_at := now₀
      finished_at := none }
  let st0 : PipeState σ := { runs := st.runs ++ [newRun], store := st.store }
  match step_fn st0.store run_id with
  | .ok (store1, res) =>
    (.ok (run_id, res),
     { runs := set_run st0.runs run_id (fun r => finalize_run_success r now₁),
       store := store1 })
  | .error e =>
    (.error e,
     { runs := set_run st0.runs run_id (fun r => finalize_run_failed r e now₁),
       store := st0.store })

/-- Concrete usage requirement, rule and produced row exercising
`C2_decision_threshold`. -/
def w2u : UsageReq := ⟨1, 1, str "core", str "krf"⟩

def w2r : MatrixRule := ⟨5, str "JP", [], str "item-1", [], str "krf", [], [], [], none⟩

def w2row : MatrixMatch :=
  ⟨0, 42, 1, 5, str "core_hit", ⟨1, 3⟩, str "maybe", [str "krf"]⟩

/-- Concrete two-list inputs exercising `C4_two_list_classification` and
`C10_total_unique_items`: one core-sourced and one expanded-sourced match
on the same rule. -/
def w4m1 : MatrixMatch := ⟨1, 42, 1, 5, str "core_hit", ⟨1, 1⟩, str "hit", []⟩

def w4m2 : MatrixMatch := ⟨2, 42, 2, 5, str "expanded_hit", ⟨1, 2⟩, str "maybe", []⟩

def w4r : MatrixRule := ⟨5, str "JP", [], str "i1", [], str "t", [], [], [], none⟩

def w4rows : List (MatrixMatch × MatrixRule) := [(w4m1, w4r), (w4m2, w4r)]

def w4g : Group := group_for [] (get_item_key w4r) w4rows

/-- Concrete retrieval inputs exercising the C1 fallback path. -/
def w1u : UsageReq := ⟨1, 1, str "core", str "laser"⟩

def w1p : Patent := ⟨7⟩

/-! ### `_normalize_text` is a fixed point (groundwork for claim C8) -/

lemma normalize_text_eq (s : Str) :
    normalize_text s = pyStrip (squeezeSpaces (s.map normChar)) := by
  unfold normalize_text
  rw [List.map_map, List.map_map]
  rfl

lemma char_toNat_ofNat_of_lt {n : ℕ} (h : n < 55296) : (Char.ofNat n).toNat = n := by
  have hv : n.isValidChar := Or.inl h
  unfold Char.ofNat
  rw [dif_pos hv]
  rfl

lemma char_le_iff {a b : Char} : a ≤ b ↔ a.toNat ≤ b.toNat := by
  rw [Char.le_def]
  exact Iff.rfl

lemma char_ne_of_toNat {a b : Char} (h : a.toNat ≠ b.toNat) : a ≠ b :=
  fun e => h (by rw [e])

lemma replaceChar_eq_self_of_lt {c : Char} (h : c.toNat < 8213) : replaceChar c = c := by
  have v1 : ('（').toNat = 65288 := rfl
  have v2 : ('）').toNat = 65289 := rfl
  have v3 : ('，').toNat = 65292 := rfl
  have v4 : ('．').toNat = 65294 := rfl
  have v5 : ('・').toNat = 12539 := rfl
  have v6 : ('－').toNat = 65293 := rfl
  have v7 : ('―').toNat = 8213 := rfl
  have v8 : ('−').toNat = 8722 := rfl
  simp only [replaceChar]
  rw [if_neg (char_ne_of_toNat (by omega)), if_neg (char_ne_of_toNat (by omega)),
    if_neg (char_ne_of_toNat (by omega)), if_neg (char_ne_of_toNat (by omega)),
    if_neg (char_ne_of_toNat (by omega)), if_neg (char_ne_of_toNat (by omega)),
    if_neg (char_ne_of_toNat (by omega)), if_neg (char_ne_of_toNat (by omega))]

lemma isSpaceChar_eq_false_of {c : Char} (hlo : 97 ≤ c.toNat) (hhi : c.toNat ≤ 122) :
    isSpaceChar c = false := by
  have v1 : (' ').toNat = 32 := rfl
  have v2 : ('\t').toNat = 9 := rfl
  have v3 : ('\n').toNat = 10 := rfl
  have v4 : ('\r').toNat = 13 := rfl
  have v5 : (Char.ofNat 0x0b).toNat = 11 := rfl
  have v6 : (Char.ofNat 0x0c).toNat = 12 := rfl
  have v7 : (Char.ofNat 0xa0).toNat = 160 := rfl
  have v8 : (Char.ofNat 0x3000).toNat = 12288 := rfl
  simp only [isSpaceChar, Bool.or_eq_false_iff, decide_eq_false_iff_not]
  exact ⟨⟨⟨⟨⟨⟨⟨char_ne_of_toNat (by omega), char_ne_of_toNat (by omega)⟩,
    char_ne_of_toNat (by omega)⟩, char_ne_of_toNat (by omega)⟩,
    char_ne_of_toNat (by omega)⟩, char_ne_of_toNat (by omega)⟩,
    char_ne_of_toNat (by omega)⟩, char_ne_of_toNat (by omega)⟩

lemma pyLower_eq_self_of {c : Char} (h : ¬('A' ≤ c ∧ c ≤ 'Z')) : pyLower c = c := by
  simp only [pyLower, if_neg h]

lemma not_upper_of_toNat {c : Char} (h : 90 < c.toNat ∨ c.toNat < 65) :
    ¬('A' ≤ c ∧ c ≤ 'Z') := by
  rintro ⟨h1, h2⟩
  rw [char_le_iff] at h1 h2
  have v1 : ('A').toNat = 65 := rfl
  have v2 : ('Z').toNat = 90 := rfl
  omega

lemma normChar_idem (c : Char) : normChar (normChar c) = normChar c := by
  by_cases e1 : c = '（'; · rw [e1]; decide
  by_cases e2 : c = '）'; · rw [e2]; decide
  by_cases e3 : c = '，'; · rw [e3]; decide
  by_cases e4 : c = '．'; · rw [e4]; decide
  by_cases e5 : c = '・'; · rw [e5]; decide
  by_cases e6 : c = '－'; · rw [e6]; decide
  by_cases e7 : c = '―'; · rw [e7]; decide
  by_cases e8 : c = '−'; · rw [e8]; decide
  by_cases hu : 'A' ≤ c ∧ c ≤ 'Z'
  · have h65 : 65 ≤ c.toNat := by
      have := char_le_iff.mp hu.1
      simpa using this
    have h90 : c.toNat ≤ 90 := by
      have := char_le_iff.mp hu.2
      simpa using this
    have hd : (Char.ofNat (c.toNat + 32)).toNat = c.toNat + 32 :=
      char_toNat_ofNat_of_lt (by omega)
    set d := Char.ofNat (c.toNat + 32) with hdd
    have h97 : 97 ≤ d.toNat := by omega
    have h122 : d.toNat ≤ 122 := by omega
    have g1 : pyLower c = d := by simp only [pyLower, if_pos hu]
    have g2 : replaceChar d = d := replaceChar_eq_self_of_lt (by omega)
    have g3 : isSpaceChar d = false := isSpaceChar_eq_false_of h97 h122
    have g4 : toSpace d = d := by unfold toSpace; rw [g3]; rfl
    have g5 : pyLower d = d := pyLower_eq_self_of (not_upper_of_toNat (Or.inl (by omega)))
    have hc : normChar c = d := by unfold normChar; rw [g1, g2, g4]
    rw [hc]
    unfold normChar
    rw [g5, g2, g4]
  · have hrep : replaceChar c = c := by
      simp only [replaceChar, if_neg e1, if_neg e2, if_neg e3, if_neg e4, if_neg e5,
        if_neg e6, if_neg e7, if_neg e8]
    by_cases hs : isSpaceChar c
    · have hc : normChar c = ' ' := by
        unfold normChar
        rw [pyLower_eq_self_of hu, hrep]
        unfold toSpace
        rw [if_pos hs]
      rw [hc]
      decide
    · have hc : normChar c = c := by
        unfold normChar
        rw [pyLower_eq_self_of hu, hrep]
        unfold toSpace
        rw [if_neg hs]
      rw [hc, hc]

lemma squeezeSpaces_nil : squeezeSpaces [] = [] := rfl

lemma squeezeSpaces_single (c : Char) : squeezeSpaces [c] = [c] := rfl

lemma squeezeSpaces_cons2_pos {a b : Char} {rest : List Char} (h : a = ' ' ∧ b = ' ') :
    squeezeSpaces (a :: b :: rest) = squeezeSpaces (b :: rest) := by
  simp only [squeezeSpaces]
  rw [if_pos h]

lemma squeezeSpaces_cons2_neg {a b : Char} {rest : List Char} (h : ¬(a = ' ' ∧ b = ' ')) :
    squeezeSpaces (a :: b :: rest) = a :: squeezeSpaces (b :: rest) := by
  simp only [squeezeSpaces]
  rw [if_neg h]

lemma squeezeSpaces_spec (l : List Char) :
    (squeezeSpaces l).head? = l.head? ∧ List.Chain' noTwoSp (squeezeSpaces l) := by
  induction l using squeezeSpaces.induct
  next => rw [squeezeSpaces_nil]; exact ⟨rfl, List.chain'_nil⟩
  next c => rw [squeezeSpaces_single]; exact ⟨rfl, List.chain'_singleton c⟩
  next a b rest h ih =>
    rw [squeezeSpaces_cons2_pos h]
    refine ⟨?_, ih.2⟩
    rw [ih.1]
    simp [h.1, h.2]
  next a b rest h ih =>
    rw [squeezeSpaces_cons2_neg h]
    refine ⟨rfl, List.chain'_cons'.mpr ⟨?_, ih.2⟩⟩
    intro y hy
    rw [ih.1] at hy
    simp only [List.head?_cons, Option.mem_def, Option.some.injEq] at hy
    subst hy
    exact h

lemma chain'_squeezeSpaces (l : List Char) : List.Chain' noTwoSp (squeezeSpaces l) :=
  (squeezeSpaces_spec l).2

lemma squeezeSpaces_eq_self {l : List Char} (h : List.Chain' noTwoSp l) :
    squeezeSpaces l = l := by
  induction l using squeezeSpaces.induct
  next => exact squeezeSpaces_nil
  next c => exact squeezeSpaces_single c
  next a b rest hab ih =>
    exact absurd hab (List.chain'_cons.mp h).1
  next a b rest hab ih =>
    rw [squeezeSpaces_cons2_neg hab, ih (List.chain'_cons.mp h).2]

lemma mem_squeezeSpaces {x : Char} {l : List Char} (h : x ∈ squeezeSpaces l) : x ∈ l := by
  induction l using squeezeSpaces.induct
  next => rw [squeezeSpaces_nil] at h; exact h
  next c => rw [squeezeSpaces_single] at h; exact h
  next a b rest hab ih =>
    rw [squeezeSpaces_cons2_pos hab] at h
    exact List.mem_cons.mpr (Or.inr (ih h))
  next a b rest hab ih =>
    rw [squeezeSpaces_cons2_neg hab] at h
    rcases List.mem_cons.mp h with h1 | h1
    · exact List.mem_cons.mpr (Or.inl h1)
    · exact List.mem_cons.mpr (Or.inr (ih h1))

lemma pyStrip_infix_of (l : Str) : pyStrip l <:+: l := by
  unfold pyStrip
  have h1 : List.dropWhile (fun c => isSpaceChar c) l <:+ l := List.dropWhile_suffix _
  have h2 : (List.dropWhile (fun c => isSpaceChar c)
      (List.dropWhile (fun c => isSpaceChar c) l).reverse).reverse <+:
      List.dropWhile (fun c => isSpaceChar c) l := by
    rw [← List.reverse_suffix, List.reverse_reverse]
    exact List.dropWhile_suffix _
  exact h2.isInfix.trans h1.isInfix

lemma mem_pyStrip {x : Char} {l : Str} (h : x ∈ pyStrip l) : x ∈ l :=
  List.Sublist.mem h (pyStrip_infix_of l).sublist

lemma dropWhile_eq_self_of_head {p : Char → Bool} {l : List Char}
    (h : ∀ (hne : l ≠ []), p (l.head hne) = false) : List.dropWhile p l = l := by
  cases l with
  | nil => rfl
  | cons a as =>
    have ha : p a = false := h (by simp)
    rw [List.dropWhile_cons, if_neg (by simp [ha])]

lemma pyStrip_head {l : Str} (h : pyStrip l ≠ []) :
    isSpaceChar ((pyStrip l).head h) = false := by
  unfold pyStrip at *
  set A := List.dropWhile (fun c => isSpaceChar c) l with hA
  set B := List.dropWhile (fun c => isSpaceChar c) A.reverse with hB
  have hBne : B ≠ [] := by simpa using h
  have hArne : A.reverse ≠ [] := by
    intro e
    rw [hB, e] at hBne
    exact hBne rfl
  have hAne : A ≠ [] := by simpa using hArne
  have h1 : (B.reverse).head h = B.getLast hBne := List.head_reverse h
  have h2 : B.getLast hBne = A.reverse.getLast hArne :=
    List.IsSuffix.getLast (hB ▸ List.dropWhile_suffix _) hBne
  have h3 : A.reverse.getLast hArne = A.head hAne := List.getLast_reverse hArne
  have h4 : isSpaceChar (A.head hAne) = false :=
    List.head_dropWhile_not (fun c => isSpaceChar c) l hAne
  rw [h1, h2, h3]
  exact h4

lemma pyStrip_getLast {l : Str} (h : pyStrip l ≠ []) :
    isSpaceChar ((pyStrip l).getLast h) = false := by
  unfold pyStrip at *
  set A := List.dropWhile (fun c => isSpaceChar c) l with hA
  set B := List.dropWhile (fun c => isSpaceChar c) A.reverse with hB
  have hBne : B ≠ [] := by simpa using h
  have h1 : (B.reverse).getLast h = B.head hBne := List.getLast_reverse h
  have h2 : isSpaceChar (B.head hBne) = false :=
    List.head_dropWhile_not (fun c => isSpaceChar c) A.reverse hBne
  rw [h1]
  exact h2

lemma pyStrip_eq_self {l : Str}
    (hh : ∀ (hne : l ≠ []), isSpaceChar (l.head hne) = false)
    (hl : ∀ (hne : l ≠ []), isSpaceChar (l.getLast hne) = false) :
    pyStrip l = l := by
  unfold pyStrip
  have h1 : List.dropWhile (fun c => isSpaceChar c) l = l := dropWhile_eq_self_of_head hh
  rw [h1]
  have h2 : List.dropWhile (fun c => isSpaceChar c) l.reverse = l.reverse := by
    apply dropWhile_eq_self_of_head
    intro hne
    have hlne : l ≠ [] := by simpa using hne
    rw [List.head_reverse hne]
    exact hl hlne
  rw [h2, List.reverse_reverse]

lemma pyStrip_idem (l : Str) : pyStrip (pyStrip l) = pyStrip l :=
  pyStrip_eq_self (fun hne => pyStrip_head hne) (fun hne => pyStrip_getLast hne)

lemma map_eq_self_of {α : Type} {f : α → α} {l : List α} (h : ∀ x ∈ l, f x = x) :
    l.map f = l := by
  induction l with
  | nil => rfl
  | cons a as ih =>
    simp only [List.map_cons, h a (by simp)]
    rw [ih (fun x hx => h x (by simp [hx]))]

lemma normalize_text_idem (s : Str) :
    normalize_text (normalize_text s) = normalize_text s := by
  set nf := normalize_text s with hnf
  rw [normalize_text_eq nf]
  have hmem : ∀ x ∈ nf, normChar x = x := by
    intro x hx
    rw [hnf, normalize_text_eq] at hx
    have hx2 := mem_squeezeSpaces (mem_pyStrip hx)
    obtain ⟨c, _, rfl⟩ := List.mem_map.mp hx2
    exact normChar_idem c
  rw [map_eq_self_of hmem]
  have hchain : List.Chain' noTwoSp nf := by
    rw [hnf, normalize_text_eq]
    exact List.Chain'.infix (chain'_squeezeSpaces _) (pyStrip_infix_of _)
  rw [squeezeSpaces_eq_self hchain, hnf, normalize_text_eq]
  exact pyStrip_idem _

/-! ### Scorer groundwork (claims C3, C9) -/

lemma dedupAux_cons_mem {α : Type} [DecidableEq α] {y : α} {seen : List α}
    (ys : List α) (hy : y ∈ seen) : dedupAux seen (y :: ys) = dedupAux seen ys := by
  simp [dedupAux, hy]

lemma dedupAux_cons_not_mem {α : Type} [DecidableEq α] {y : α} {seen : List α}
    (ys : List α) (hy : y ∉ seen) :
    dedupAux seen (y :: ys) = y :: dedupAux (y :: seen) ys := by
  simp [dedupAux, hy]

lemma mem_dedupAux {α : Type} [DecidableEq α] {x : α} {l seen : List α} :
    x ∈ dedupAux seen l ↔ x ∈ l ∧ x ∉ seen := by
  induction l generalizing seen with
  | nil => simp [dedupAux]
  | cons y ys ih =>
    by_cases hy : y ∈ seen
    · rw [dedupAux_cons_mem ys hy, ih]
      constructor
      · rintro ⟨h1, h2⟩
        exact ⟨List.mem_cons.mpr (Or.inr h1), h2⟩
      · rintro ⟨h1, h2⟩
        rcases List.mem_cons.mp h1 with rfl | h1
        · exact absurd hy h2
        · exact ⟨h1, h2⟩
    · rw [dedupAux_cons_not_mem ys hy, List.mem_cons, ih]
      constructor
      · rintro (rfl | ⟨h1, h2⟩)
        · exact ⟨List.mem_cons_self _ _, hy⟩
        · refine ⟨List.mem_cons.mpr (Or.inr h1), fun hc => ?_⟩
          exact h2 (List.mem_cons.mpr (Or.inr hc))
      · rintro ⟨h1, h2⟩
        by_cases hxy : x = y
        · exact Or.inl hxy
        · have h1x : x ∈ ys := by
            rcases List.mem_cons.mp h1 with h | h
            · exact absurd h hxy
            · exact h
          refine Or.inr ⟨h1x, fun hc => ?_⟩
          rcases List.mem_cons.mp hc with h | h
          · exact hxy h
          · exact h2 h

lemma mem_dedupKeepFirst {α : Type} [DecidableEq α] {x : α} {l : List α} :
    x ∈ dedupKeepFirst l ↔ x ∈ l := by
  rw [dedupKeepFirst, mem_dedupAux]
  simp

lemma nodup_dedupAux {α : Type} [DecidableEq α] (seen l : List α) :
    (dedupAux seen l).Nodup := by
  induction l generalizing seen with
  | nil => exact List.nodup_nil
  | cons y ys ih =>
    by_cases hy : y ∈ seen
    · rw [dedupAux_cons_mem ys hy]
      exact ih seen
    · rw [dedupAux_cons_not_mem ys hy]
      refine List.nodup_cons.mpr ⟨?_, ih (y :: seen)⟩
      intro hmem
      exact (mem_dedupAux.mp hmem).2 (List.mem_cons_self _ _)

lemma nodup_dedupKeepFirst {α : Type} [DecidableEq α] (l : List α) :
    (dedupKeepFirst l).Nodup := nodup_dedupAux [] l

lemma dedupKeepFirst_toFinset {α : Type} [DecidableEq α] (l : List α) :
    (dedupKeepFirst l).toFinset = l.toFinset := by
  ext x
  simp [List.mem_toFinset, mem_dedupKeepFirst]

lemma dedupKeepFirst_nil {α : Type} [DecidableEq α] :
    dedupKeepFirst ([] : List α) = [] := rfl

lemma dedupKeepFirst_eq_nil_iff {α : Type} [DecidableEq α] {l : List α} :
    dedupKeepFirst l = [] ↔ l = [] := by
  cases l with
  | nil => exact Iff.of_eq (by simp [dedupKeepFirst, dedupAux])
  | cons x xs =>
    rw [dedupKeepFirst, dedupAux_cons_not_mem xs (List.not_mem_nil x)]
    simp

lemma dedupKeepFirst_length_eq_card (l : List Tok) :
    (dedupKeepFirst l).length = l.toFinset.card := by
  rw [← dedupKeepFirst_toFinset l, List.toFinset_card_of_nodup (nodup_dedupKeepFirst l)]

lemma interList_length (a b : List Tok) :
    ((dedupKeepFirst a).filter (fun x => x ∈ dedupKeepFirst b)).length =
      (a.toFinset ∩ b.toFinset).card := by
  have hnd : ((dedupKeepFirst a).filter (fun x => x ∈ dedupKeepFirst b)).Nodup :=
    (nodup_dedupKeepFirst a).filter _
  rw [← List.toFinset_card_of_nodup hnd, List.toFinset_filter]
  congr 1
  ext x
  simp [List.mem_toFinset, mem_dedupKeepFirst, dedupKeepFirst_toFinset,
    Finset.mem_filter, Finset.mem_inter]

lemma binary_cosine_empty {a b : List Tok}
    (h : dedupKeepFirst a = [] ∨ dedupKeepFirst b = []) :
    binary_cosine a b = (⟨0, 1⟩, []) := by
  simp only [binary_cosine]
  rw [if_pos h]

lemma binary_cosine_pos_eq {a b : List Tok}
    (h : ¬(dedupKeepFirst a = [] ∨ dedupKeepFirst b = [])) :
    binary_cosine a b =
      (⟨((dedupKeepFirst a).filter (fun x => x ∈ dedupKeepFirst b)).length,
        (dedupKeepFirst a).length * (dedupKeepFirst b).length⟩,
       (List.insertionSort tokLe
         ((dedupKeepFirst a).filter (fun x => x ∈ dedupKeepFirst b))).take 40) := by
  simp only [binary_cosine]
  rw [if_neg h]

lemma binary_cosine_denSq_pos (a b : List Tok) :
    0 < (binary_cosine a b).1.denSq := by
  by_cases h : dedupKeepFirst a = [] ∨ dedupKeepFirst b = []
  · rw [binary_cosine_empty h]
    exact Nat.one_pos
  · rw [binary_cosine_pos_eq h]
    push_neg at h
    exact Nat.mul_pos (List.length_pos.mpr h.1) (List.length_pos.mpr h.2)

lemma binary_cosine_inter_sq_le (a b : List Tok) :
    (binary_cosine a b).1.inter ^ 2 ≤ (binary_cosine a b).1.denSq := by
  by_cases h : dedupKeepFirst a = [] ∨ dedupKeepFirst b = []
  · rw [binary_cosine_empty h]
    simp
  · rw [binary_cosine_pos_eq h]
    have h1 : (a.toFinset ∩ b.toFinset).card ≤ (dedupKeepFirst a).length := by
      rw [dedupKeepFirst_length_eq_card]
      exact Finset.card_le_card Finset.inter_subset_left
    have h2 : (a.toFinset ∩ b.toFinset).card ≤ (dedupKeepFirst b).length := by
      rw [dedupKeepFirst_length_eq_card]
      exact Finset.card_le_card Finset.inter_subset_right
    simp only [interList_length]
    calc (a.toFinset ∩ b.toFinset).card ^ 2
        = (a.toFinset ∩ b.toFinset).card * (a.toFinset ∩ b.toFinset).card := sq (a.toFinset ∩ b.toFinset).card ▸ by ring
      _ ≤ (dedupKeepFirst a).length * (dedupKeepFirst b).length :=
          Nat.mul_le_mul h1 h2

/-- `val` as a single square root. -/
lemma ScoreRep.val_eq (s : ScoreRep) :
    s.val = Real.sqrt ((s.inter : ℝ) ^ 2 / (s.denSq : ℝ)) := by
  rw [ScoreRep.val, Real.sqrt_div (by positivity), Real.sqrt_sq (by positivity)]

lemma ScoreRep.val_nonneg (s : ScoreRep) : 0 ≤ s.val :=
  div_nonneg (Nat.cast_nonneg _) (Real.sqrt_nonneg _)

lemma ScoreRep.val_zero : (ScoreRep.mk 0 1).val = 0 := by
  simp [ScoreRep.val]

/-- The cross-multiplied threshold test agrees with the real comparison
whenever the denominator is positive. -/
lemma ScoreRep.geQ_iff {t : ℚ} {s : ScoreRep} (hd : 0 < s.denSq) :
    ScoreRep.geQ t s ↔ (t : ℝ) ≤ s.val := by
  rw [ScoreRep.val_eq, ScoreRep.geQ]
  have hdR : (0 : ℝ) < (s.denSq : ℝ) := by exact_mod_cast hd
  by_cases ht : t ≤ 0
  · simp only [ht, true_or, true_iff]
    exact le_trans (by exact_mod_cast ht) (Real.sqrt_nonneg _)
  · push_neg at ht
    have htR : (0 : ℝ) < (t : ℝ) := by exact_mod_cast ht
    rw [Real.le_sqrt htR.le (by positivity), le_div_iff₀ hdR]
    constructor
    · rintro (h | h)
      · exact absurd h (not_le.mpr ht)
      · exact_mod_cast h
    · intro h
      exact Or.inr (by exact_mod_cast h)

/-- The cross-multiplied `score <= bound` test agrees with the real
comparison whenever the denominator is positive. -/
lemma ScoreRep.leQ_iff {t : ℚ} {s : ScoreRep} (hd : 0 < s.denSq) :
    ScoreRep.leQ s t ↔ s.val ≤ (t : ℝ) := by
  rw [ScoreRep.val_eq, ScoreRep.leQ]
  have hdR : (0 : ℝ) < (s.denSq : ℝ) := by exact_mod_cast hd
  constructor
  · rintro ⟨ht, h⟩
    rw [Real.sqrt_le_left (by exact_mod_cast ht), div_le_iff₀ hdR]
    exact_mod_cast h
  · intro h
    have ht : (0 : ℝ) ≤ (t : ℝ) := le_trans (Real.sqrt_nonneg _) h
    rw [Real.sqrt_le_left ht, div_le_iff₀ hdR] at h
    exact ⟨by exact_mod_cast ht, by exact_mod_cast h⟩

/-- The cross-multiplied sort comparison agrees with the real comparison
whenever both denominators are positive. -/
lemma ScoreRep.le_iff_val {s t : ScoreRep} (hs : 0 < s.denSq) (ht : 0 < t.denSq) :
    ScoreRep.le s t ↔ s.val ≤ t.val := by
  rw [ScoreRep.val_eq, ScoreRep.val_eq, ScoreRep.le,
    Real.sqrt_le_sqrt_iff (by positivity),
    div_le_div_iff₀ (by exact_mod_cast hs) (by exact_mod_cast ht)]
  exact_mod_cast Iff.rfl

instance : IsTrans Tok tokLe where
  trans := by
    intro x y z hxy hyz
    rcases hxy with h1 | ⟨h1, h1'⟩ <;> rcases hyz with h2 | ⟨h2, h2'⟩
    · exact Or.inl (by omega)
    · exact Or.inl (by omega)
    · exact Or.inl (by omega)
    · exact Or.inr ⟨by omega, le_trans h1' h2'⟩

instance : IsTotal Tok tokLe where
  total := by
    intro x y
    rcases lt_trichotomy x.length y.length with h | h | h
    · exact Or.inr (Or.inl h)
    · rcases le_total x y with hxy | hxy
      · exact Or.inl (Or.inr ⟨h, hxy⟩)
      · exact Or.inr (Or.inr ⟨h.symm, hxy⟩)
    · exact Or.inl (Or.inl h)

/-! ### Rule Matching Engine groundwork (claims C2, C5) -/

lemma match_rows_shape {threshold : ℚ} {top_k run_id : ℕ}
    {pack : List (MatrixRule × List Tok)} {u : UsageReq} {row : MatrixMatch}
    (h : row ∈ match_rows_for_usage threshold top_k run_id pack u) :
    row.ai_run_id = run_id ∧ 0 < row.match_score.denSq ∧
      row.decision =
        (if ScoreRep.geQ threshold row.match_score then str "hit" else str "maybe") := by
  simp only [match_rows_for_usage] at h
  by_cases ht : tokenize (pyStrip u.text) = []
  · rw [if_pos ht] at h
    exact absurd h (List.not_mem_nil row)
  · rw [if_neg ht] at h
    obtain ⟨c, hc, hrow⟩ := List.mem_map.mp h
    have hc1 : c ∈ List.insertionSort scoredLe
        (pack.map (fun p => (binary_cosine (tokenize (pyStrip u.text)) p.2, p.1))) :=
      List.Sublist.mem (List.mem_of_mem_filter hc) (List.take_sublist _ _)
    have hc2 := (List.perm_insertionSort scoredLe _).mem_iff.mp hc1
    obtain ⟨p, _, hpc⟩ := List.mem_map.mp hc2
    have hden : 0 < c.1.1.denSq := by
      rw [← hpc]
      exact binary_cosine_denSq_pos _ _
    exact ⟨by rw [← hrow], by rw [← hrow]; exact hden, by rw [← hrow]⟩

lemma inserted_rows_shape {threshold : ℚ} {regime : Str} {top_k tid rid : ℕ}
    {usages : List UsageReq} {rules : List MatrixRule} {row : MatrixMatch}
    (h : row ∈ inserted_rows threshold regime top_k tid rid usages rules) :
    row.ai_run_id = rid ∧ 0 < row.match_score.denSq ∧
      row.decision =
        (if ScoreRep.geQ threshold row.match_score then str "hit" else str "maybe") := by
  simp only [inserted_rows] at h
  obtain ⟨u, _, hrow⟩ := List.mem_flatMap.mp h
  exact match_rows_shape hrow

lemma inserted_rows_filter_ne {threshold : ℚ} {regime : Str} {top_k tid rid : ℕ}
    {usages : List UsageReq} {rules : List MatrixRule} :
    (inserted_rows threshold regime top_k tid rid usages rules).filter
      (fun m => m.ai_run_id ≠ rid) = [] := by
  rw [List.filter_eq_nil_iff]
  intro row hrow
  simp [(inserted_rows_shape hrow).1]

lemma inserted_rows_filter_eq {threshold : ℚ} {regime : Str} {top_k tid rid : ℕ}
    {usages : List UsageReq} {rules : List MatrixRule} :
    (inserted_rows threshold regime top_k tid rid usages rules).filter
      (fun m => m.ai_run_id = rid) =
      inserted_rows threshold regime top_k tid rid usages rules := by
  rw [List.filter_eq_self]
  intro row hrow
  simp [(inserted_rows_shape hrow).1]

lemma step_matrix_match_frame (threshold : ℚ) (regime : Str) (top_k tid rid : ℕ)
    (usages : List UsageReq) (rules : List MatrixRule)
    (existing : List MatrixMatch) :
    (step_matrix_match threshold regime top_k tid rid usages rules existing).filter
      (fun m => m.ai_run_id ≠ rid) =
      existing.filter (fun m => m.ai_run_id ≠ rid) := by
  rw [step_matrix_match, List.filter_append, inserted_rows_filter_ne,
    List.filter_filter]
  rw [List.filter_congr (fun a _ => Bool.and_self _), List.append_nil]

/-! ### Two-list groundwork (claims C4, C6, C10) -/

lemma foldl_add_row_spec (umap : List UsageReq)
    (rows : List (MatrixMatch × MatrixRule)) (g : Group) :
    ((rows.foldl (add_row umap) g).key = g.key) ∧
    ((rows.foldl (add_row umap) g).core_hits =
      g.core_hits ++ (rows.filter (fun rc => is_core_hit umap rc.1)).map
        (fun rc => make_hit_record umap rc.1)) ∧
    ((rows.foldl (add_row umap) g).expanded_hits =
      g.expanded_hits ++ (rows.filter (fun rc => !(is_core_hit umap rc.1))).map
        (fun rc => make_hit_record umap rc.1)) := by
  induction rows generalizing g with
  | nil => simp
  | cons rc rest ih =>
    rw [List.foldl_cons]
    obtain ⟨ih1, ih2, ih3⟩ := ih (add_row umap g rc)
    by_cases hc : is_core_hit umap rc.1
    · have hk : (add_row umap g rc).key = g.key := by simp [add_row, hc]
      have hcore : (add_row umap g rc).core_hits =
          g.core_hits ++ [make_hit_record umap rc.1] := by simp [add_row, hc]
      have hexp : (add_row umap g rc).expanded_hits = g.expanded_hits := by
        simp [add_row, hc]
      refine ⟨ih1.trans hk, ?_, ?_⟩
      · rw [ih2, hcore]
        simp [List.filter_cons, hc]
      · rw [ih3, hexp]
        simp [List.filter_cons, hc]
    · have hk : (add_row umap g rc).key = g.key := by simp [add_row, hc]
      have hcore : (add_row umap g rc).core_hits = g.core_hits := by
        simp [add_row, hc]
      have hexp : (add_row umap g rc).expanded_hits =
          g.expanded_hits ++ [make_hit_record umap rc.1] := by simp [add_row, hc]
      refine ⟨ih1.trans hk, ?_, ?_⟩
      · rw [ih2, hcore]
        simp [List.filter_cons, hc]
      · rw [ih3, hexp]
        simp [List.filter_cons, hc]

lemma group_for_spec (umap : List UsageReq) (k : Str)
    {rows_k : List (MatrixMatch × MatrixRule)} (h : rows_k ≠ []) :
    (group_for umap k rows_k).key = k ∧
    (group_for umap k rows_k).core_hits =
      (rows_k.filter (fun rc => is_core_hit umap rc.1)).map
        (fun rc => make_hit_record umap rc.1) ∧
    (group_for umap k rows_k).expanded_hits =
      (rows_k.filter (fun rc => !(is_core_hit umap rc.1))).map
        (fun rc => make_hit_record umap rc.1) := by
  cases rows_k with
  | nil => exact absurd rfl h
  | cons rc rest =>
    simp only [group_for]
    obtain ⟨h1, h2, h3⟩ := foldl_add_row_spec umap (rc :: rest) (init_group k rc.2)
    refine ⟨h1, ?_, ?_⟩
    · rw [h2]
      simp [init_group]
    · rw [h3]
      simp [init_group]

lemma build_groups_mem_spec {umap : List UsageReq}
    {rows : List (MatrixMatch × MatrixRule)} {g : Group}
    (hg : g ∈ build_groups umap rows) :
    (g.core_hits ≠ [] ↔
      ∃ rc ∈ rows, get_item_key rc.2 = g.key ∧ is_core_hit umap rc.1 = true) ∧
    (g.expanded_hits ≠ [] ↔
      ∃ rc ∈ rows, get_item_key rc.2 = g.key ∧ is_core_hit umap rc.1 = false) ∧
    (g.core_hits ≠ [] ∨ g.expanded_hits ≠ []) := by
  simp only [build_groups] at hg
  obtain ⟨k, hk, hgf⟩ := List.mem_map.mp hg
  have hk2 : k ∈ rows.map (fun rc => get_item_key rc.2) := mem_dedupKeepFirst.mp hk
  obtain ⟨rc0, hrc0, hrc0k⟩ := List.mem_map.mp hk2
  have hrc0f : rc0 ∈ rows.filter (fun rc => get_item_key rc.2 = k) :=
    List.mem_filter.mpr ⟨hrc0, by simp [hrc0k]⟩
  have hne : rows.filter (fun rc => get_item_key rc.2 = k) ≠ [] :=
    List.ne_nil_of_mem hrc0f
  obtain ⟨hkey, hcore, hexp⟩ := group_for_spec umap k hne
  have hgk : g.key = k := by rw [← hgf]; exact hkey
  have hcoreiff : g.core_hits ≠ [] ↔
      ∃ rc ∈ rows, get_item_key rc.2 = g.key ∧ is_core_hit umap rc.1 = true := by
    rw [hgk, ← hgf, hcore, ne_eq, List.map_eq_nil_iff, List.filter_eq_nil_iff]
    push_neg
    constructor
    · rintro ⟨rc, hrcm, hp⟩
      have hrcm2 := List.mem_filter.mp hrcm
      exact ⟨rc, hrcm2.1, by simpa using hrcm2.2, hp⟩
    · rintro ⟨rc, hrcm, hq, hp⟩
      exact ⟨rc, List.mem_filter.mpr ⟨hrcm, by simp [hq]⟩, hp⟩
  have hexpiff : g.expanded_hits ≠ [] ↔
      ∃ rc ∈ rows, get_item_key rc.2 = g.key ∧ is_core_hit umap rc.1 = false := by
    rw [hgk, ← hgf, hexp, ne_eq, List.map_eq_nil_iff, List.filter_eq_nil_iff]
    push_neg
    constructor
    · rintro ⟨rc, hrcm, hp⟩
      have hrcm2 := List.mem_filter.mp hrcm
      exact ⟨rc, hrcm2.1, by simpa using hrcm2.2, by simpa using hp⟩
    · rintro ⟨rc, hrcm, hq, hp⟩
      exact ⟨rc, List.mem_filter.mpr ⟨hrcm, by simp [hq]⟩, by simpa using hp⟩
  refine ⟨hcoreiff, hexpiff, ?_⟩
  by_cases hc : is_core_hit umap rc0.1
  · exact Or.inl (hcoreiff.mpr ⟨rc0, hrc0, by rw [hgk]; exact hrc0k, hc⟩)
  · exact Or.inr (hexpiff.mpr ⟨rc0, hrc0, by rw [hgk]; exact hrc0k,
      by simpa using hc⟩)

lemma build_groups_nil (umap : List UsageReq) : build_groups umap [] = [] := rfl

lemma compute_two_lists_mem_inter {umap : List UsageReq} {tid rid : ℕ}
    {rows : List (MatrixMatch × MatrixRule)} {g : Group} (hrows : rows ≠ []) :
    g ∈ (compute_two_lists umap tid rid rows).intersection ↔
      g ∈ build_groups umap rows ∧ g.core_hits ≠ [] ∧ g.expanded_hits ≠ [] := by
  simp only [compute_two_lists, if_neg hrows]
  rw [(List.perm_insertionSort group_le _).mem_iff, List.mem_filter]
  simp [and_assoc]

lemma compute_two_lists_mem_exp {umap : List UsageReq} {tid rid : ℕ}
    {rows : List (MatrixMatch × MatrixRule)} {g : Group} (hrows : rows ≠ []) :
    g ∈ (compute_two_lists umap tid rid rows).expanded_only ↔
      g ∈ build_groups umap rows ∧ g.core_hits = [] ∧ g.expanded_hits ≠ [] := by
  simp only [compute_two_lists, if_neg hrows]
  rw [(List.perm_insertionSort group_le _).mem_iff, List.mem_filter]
  simp [and_assoc]

lemma count_split (gs : List Group) :
    (gs.filter (fun g => g.core_hits ≠ [] ∧ g.expanded_hits ≠ [])).length +
    (gs.filter (fun g => g.core_hits = [] ∧ g.expanded_hits ≠ [])).length +
    (gs.filter (fun g => g.expanded_hits = [])).length = gs.length := by
  induction gs with
  | nil => rfl
  | cons g rest ih =>
    by_cases he : g.expanded_hits = []
    · simp only [List.filter_cons, he]
      simp only [List.length_cons]
      rw [if_neg (by simp [he]), if_neg (by simp [he]), if_pos (by simp [he])]
      simp only [List.length_cons]
      omega
    · by_cases hc : g.core_hits = []
      · simp only [List.filter_cons]
        rw [if_neg (by simp [hc]), if_pos (by simp [hc, he]), if_neg (by simp [he])]
        simp only [List.length_cons]
        omega
      · simp only [List.filter_cons]
        rw [if_pos (by simp [hc, he]), if_neg (by simp [hc]), if_neg (by simp [he])]
        simp only [List.length_cons]
        omega

/-! ## Claim theorems -/

/-- C8: text normalization is a fixed point: applying `_normalize_text` to
already-normalized output returns it unchanged, so `_tokenize` applied to
normalized text yields the same tokens as `_tokenize` of the original. -/
theorem C8_normalization_fixed_point (s : Str) :
    normalize_text (normalize_text s) = normalize_text s ∧
    tokenize (normalize_text s) = tokenize s := by
  refine ⟨normalize_text_idem s, ?_⟩
  unfold tokenize
  rw [normalize_text_idem s]

/-- C3: for all token lists A, B the scorer's similarity lies in [0, 1] and
is symmetric; for every non-empty A, score(A, A) = 1; and when either input
is empty the score is 0 and the matched-token list is empty. -/
theorem C3_scorer_algebra (a b : List Tok) :
    (0 ≤ (binary_cosine a b).1.val ∧ (binary_cosine a b).1.val ≤ 1) ∧
    (binary_cosine a b).1.val = (binary_cosine b a).1.val ∧
    (a ≠ [] → (binary_cosine a a).1.val = 1) ∧
    ((a = [] ∨ b = []) →
      (binary_cosine a b).1.val = 0 ∧ (binary_cosine a b).2 = []) := by
  refine ⟨⟨ScoreRep.val_nonneg _, ?_⟩, ?_, ?_, ?_⟩
  · -- upper bound
    rw [ScoreRep.val_eq, Real.sqrt_le_one]
    have hd := binary_cosine_denSq_pos a b
    have hn := binary_cosine_inter_sq_le a b
    rw [div_le_one (by exact_mod_cast hd)]
    exact_mod_cast hn
  · -- symmetry
    by_cases h : dedupKeepFirst a = [] ∨ dedupKeepFirst b = []
    · rw [binary_cosine_empty h, binary_cosine_empty (h.symm)]
    · have h2 : ¬(dedupKeepFirst b = [] ∨ dedupKeepFirst a = []) := fun hc => h hc.symm
      rw [binary_cosine_pos_eq h, binary_cosine_pos_eq h2]
      apply congrArg ScoreRep.val
      simp only [ScoreRep.mk.injEq]
      constructor
      · rw [interList_length, interList_length, Finset.inter_comm]
      · exact Nat.mul_comm _ _
  · -- score(a, a) = 1 on non-empty a
    intro ha
    have hA : dedupKeepFirst a ≠ [] := fun h => ha (dedupKeepFirst_eq_nil_iff.mp h)
    have h : ¬(dedupKeepFirst a = [] ∨ dedupKeepFirst a = []) := by
      intro hc
      exact hA (hc.elim id id)
    rw [binary_cosine_pos_eq h]
    have hfilter : (dedupKeepFirst a).filter (fun x => x ∈ dedupKeepFirst a) =
        dedupKeepFirst a :=
      List.filter_eq_self.mpr (fun x hx => by simpa using hx)
    rw [hfilter, ScoreRep.val_eq]
    have hL : 0 < (dedupKeepFirst a).length := List.length_pos.mpr hA
    have : (((dedupKeepFirst a).length * (dedupKeepFirst a).length : ℕ) : ℝ) =
        ((dedupKeepFirst a).length : ℝ) ^ 2 := by push_cast; ring
    rw [this]
    rw [div_self (by positivity), Real.sqrt_one]
  · -- empty input
    intro h
    have h2 : dedupKeepFirst a = [] ∨ dedupKeepFirst b = [] :=
      h.imp (fun e => by rw [e]; exact dedupKeepFirst_nil)
        (fun e => by rw [e]; exact dedupKeepFirst_nil)
    rw [binary_cosine_empty h2]
    exact ⟨ScoreRep.val_zero, rfl⟩

/-- C9: the matched-token evidence consists exactly of tokens in the
intersection of the two token sets (all of them whenever at most 40 exist),
is truncated to at most 40 entries, and is ordered by descending token
length with ties broken lexicographically ascending. -/
theorem C9_matched_tokens (a b : List Tok) :
    (∀ x ∈ (binary_cosine a b).2, x ∈ a ∧ x ∈ b) ∧
    (binary_cosine a b).2.length = min (binary_cosine a b).1.inter 40 ∧
    List.Sorted tokLe (binary_cosine a b).2 ∧
    ((binary_cosine a b).1.inter ≤ 40 →
      ∀ x, x ∈ a → x ∈ b → x ∈ (binary_cosine a b).2) := by
  by_cases h : dedupKeepFirst a = [] ∨ dedupKeepFirst b = []
  · rw [binary_cosine_empty h]
    refine ⟨by simp, by simp, List.sorted_nil, ?_⟩
    intro _ x hxa hxb
    rcases h with h | h
    · exact absurd h (List.ne_nil_of_mem (mem_dedupKeepFirst.mpr hxa))
    · exact absurd h (List.ne_nil_of_mem (mem_dedupKeepFirst.mpr hxb))
  · rw [binary_cosine_pos_eq h]
    set I := (dedupKeepFirst a).filter (fun x => x ∈ dedupKeepFirst b) with hI
    have hperm := List.perm_insertionSort tokLe I
    refine ⟨?_, ?_, ?_, ?_⟩
    · intro x hx
      have hx1 : x ∈ List.insertionSort tokLe I :=
        List.Sublist.mem hx (List.take_sublist _ _)
      have hx2 : x ∈ I := hperm.mem_iff.mp hx1
      rw [hI, List.mem_filter] at hx2
      refine ⟨mem_dedupKeepFirst.mp hx2.1, ?_⟩
      have := hx2.2
      simp only [decide_eq_true_eq] at this
      exact mem_dedupKeepFirst.mp this
    · rw [List.length_take, List.length_insertionSort, Nat.min_comm]
    · exact List.Pairwise.sublist (List.take_sublist _ _)
        (List.sorted_insertionSort tokLe I)
    · intro hlen x hxa hxb
      have hsl : (List.insertionSort tokLe I).length ≤ 40 := by
        rw [List.length_insertionSort]
        exact hlen
      rw [List.take_of_length_le hsl]
      apply hperm.mem_iff.mpr
      rw [hI, List.mem_filter]
      exact ⟨mem_dedupKeepFirst.mpr hxa, by simpa using mem_dedupKeepFirst.mpr hxb⟩


/-- C2: a persisted MatchResult's decision is `hit` exactly when its score
reaches the threshold (inclusive boundary) and `maybe` otherwise; with
threshold 0.75, a score of exactly 0.75 (realised as 3/√16) satisfies the
inclusive test while 0.7499 (realised as 7499/√10⁸) does not. -/
theorem C2_decision_threshold (threshold : ℚ) (regime : Str)
    (top_k tid rid : ℕ) (usages : List UsageReq) (rules : List MatrixRule)
    (row : MatrixMatch)
    (hrow : row ∈ inserted_rows threshold regime top_k tid rid usages rules) :
    (row.decision = str "hit" ↔ (threshold : ℝ) ≤ row.match_score.val) ∧
    (row.decision = str "maybe" ↔ ¬((threshold : ℝ) ≤ row.match_score.val)) ∧
    ((ScoreRep.mk 3 16).val = 3 / 4 ∧ ScoreRep.geQ (3 / 4) ⟨3, 16⟩) ∧
    ((ScoreRep.mk 7499 100000000).val = 7499 / 10000 ∧
      ¬ ScoreRep.geQ (3 / 4) ⟨7499, 100000000⟩) := by
  obtain ⟨hrun, hden, hdec⟩ := inserted_rows_shape hrow
  have hiff := ScoreRep.geQ_iff (t := threshold) hden
  refine ⟨?_, ?_, ⟨?_, ?_⟩, ⟨?_, ?_⟩⟩
  · rw [hdec]
    by_cases hg : ScoreRep.geQ threshold row.match_score
    · rw [if_pos hg]
      exact ⟨fun _ => hiff.mp hg, fun _ => rfl⟩
    · rw [if_neg hg]
      constructor
      · intro hmh
        exact absurd hmh (by decide)
      · intro hle
        exact absurd (hiff.mpr hle) hg
  · rw [hdec]
    by_cases hg : ScoreRep.geQ threshold row.match_score
    · rw [if_pos hg]
      constructor
      · intro hh
        exact absurd hh (by decide)
      · intro hn
        exact absurd (hiff.mp hg) hn
    · rw [if_neg hg]
      exact ⟨fun _ hle => hg (hiff.mpr hle), fun _ => rfl⟩
  · have h16 : Real.sqrt ((16 : ℕ) : ℝ) = 4 := by
      rw [show ((16 : ℕ) : ℝ) = (4 : ℝ) ^ 2 by norm_num]
      exact Real.sqrt_sq (by norm_num)
    simp only [ScoreRep.val, h16]
    norm_num
  · simp only [ScoreRep.geQ]
    norm_num
  · have h8 : Real.sqrt ((100000000 : ℕ) : ℝ) = 10000 := by
      rw [show ((100000000 : ℕ) : ℝ) = (10000 : ℝ) ^ 2 by norm_num]
      exact Real.sqrt_sq (by norm_num)
    simp only [ScoreRep.val, h8]
    norm_num
  · simp only [ScoreRep.geQ]
    norm_num

/-- C5: re-running the matching step for the same run id with unchanged
inputs leaves an identical persisted row set (idempotence); the run's rows
after the step do not depend on the prior table contents (full
replacement); and rows of other runs are untouched. -/
theorem C5_full_replacement (threshold : ℚ) (regime : Str) (top_k tid rid : ℕ)
    (usages : List UsageReq) (rules : List MatrixRule)
    (existing s₁ s₂ : List MatrixMatch) :
    step_matrix_match threshold regime top_k tid rid usages rules
        (step_matrix_match threshold regime top_k tid rid usages rules existing) =
      step_matrix_match threshold regime top_k tid rid usages rules existing ∧
    (step_matrix_match threshold regime top_k tid rid usages rules s₁).filter
        (fun m => m.ai_run_id = rid) =
      (step_matrix_match threshold regime top_k tid rid usages rules s₂).filter
        (fun m => m.ai_run_id = rid) ∧
    (step_matrix_match threshold regime top_k tid rid usages rules existing).filter
        (fun m => m.ai_run_id ≠ rid) =
      existing.filter (fun m => m.ai_run_id ≠ rid) := by
  have hstep : ∀ st : List MatrixMatch,
      (step_matrix_match threshold regime top_k tid rid usages rules st).filter
        (fun m => m.ai_run_id = rid) =
        inserted_rows threshold regime top_k tid rid usages rules := by
    intro st
    rw [step_matrix_match, List.filter_append, inserted_rows_filter_eq,
      List.filter_filter]
    have hnil : st.filter
        (fun a => decide (a.ai_run_id = rid) && decide (a.ai_run_id ≠ rid)) = [] := by
      rw [List.filter_eq_nil_iff]
      intro a _
      by_cases ha : a.ai_run_id = rid <;> simp [ha]
    rw [hnil, List.nil_append]
  refine ⟨?_, (hstep s₁).trans (hstep s₂).symm,
    step_matrix_match_frame threshold regime top_k tid rid usages rules existing⟩
  conv_lhs => rw [step_matrix_match]
  rw [step_matrix_match_frame threshold regime top_k tid rid usages rules existing]
  rw [step_matrix_match]

/-- Witness for C2: the hypothesis of `C2_decision_threshold` holds at a
concrete computed row. -/
theorem C2_decision_threshold_witness :
    w2row ∈ inserted_rows 1 (str "JP") 10 1 42 [w2u] [w2r] ∧
    (w2row.decision = str "hit" ↔ ((1 : ℚ) : ℝ) ≤ w2row.match_score.val) :=
  ⟨by decide,
   (C2_decision_threshold 1 (str "JP") 10 1 42 [w2u] [w2r] w2row (by decide)).1⟩


/-- C6: two-list computation for a resolved run with zero MatchResults
returns counts {0, 0, 0}, both output lists empty and a human-readable
note; being a total function of the rows, it raises no exception. -/
theorem C6_empty_run (usage_map : List UsageReq) (tid rid : ℕ) :
    (compute_two_lists usage_map tid rid []).counts = ⟨0, 0, 0⟩ ∧
    (compute_two_lists usage_map tid rid []).intersection = [] ∧
    (compute_two_lists usage_map tid rid []).expanded_only = [] ∧
    ∃ n, (compute_two_lists usage_map tid rid []).note = some n ∧ n ≠ [] := by
  exact ⟨rfl, rfl, rfl,
    str "このrun_idでは matrix_matches が0件でした（用途要件とマトリクスの語彙が一致しない等）。",
    rfl, by decide⟩

/-- C4: a group with at least one core-sourced and one expanded-sourced
match lands in the Intersection list; a group with expanded-sourced but no
core-sourced matches lands in the Expanded-Only list; a group with no
expanded-sourced matches appears in neither; and a group's core/expanded
sides are populated exactly by the rows of its key that the classification
condition marks core (resp. not core). -/
theorem C4_two_list_classification (usage_map : List UsageReq) (tid rid : ℕ)
    (rows : List (MatrixMatch × MatrixRule)) (g : Group)
    (hg : g ∈ build_groups usage_map rows) :
    ((g.core_hits ≠ [] ∧ g.expanded_hits ≠ []) ↔
      g ∈ (compute_two_lists usage_map tid rid rows).intersection) ∧
    ((g.core_hits = [] ∧ g.expanded_hits ≠ []) ↔
      g ∈ (compute_two_lists usage_map tid rid rows).expanded_only) ∧
    (g.expanded_hits = [] →
      g ∉ (compute_two_lists usage_map tid rid rows).intersection ∧
      g ∉ (compute_two_lists usage_map tid rid rows).expanded_only) ∧
    (g.core_hits ≠ [] ↔
      ∃ rc ∈ rows, get_item_key rc.2 = g.key ∧
        is_core_hit usage_map rc.1 = true) ∧
    (g.expanded_hits ≠ [] ↔
      ∃ rc ∈ rows, get_item_key rc.2 = g.key ∧
        is_core_hit usage_map rc.1 = false) := by
  have hrows : rows ≠ [] := by
    intro h
    rw [h, build_groups_nil] at hg
    exact absurd hg (List.not_mem_nil g)
  obtain ⟨hciff, heiff, _⟩ := build_groups_mem_spec hg
  refine ⟨?_, ?_, ?_, hciff, heiff⟩
  · constructor
    · intro h
      exact (compute_two_lists_mem_inter hrows).mpr ⟨hg, h⟩
    · intro h
      exact ((compute_two_lists_mem_inter hrows).mp h).2
  · constructor
    · intro h
      exact (compute_two_lists_mem_exp hrows).mpr ⟨hg, h⟩
    · intro h
      exact ((compute_two_lists_mem_exp hrows).mp h).2
  · intro he
    constructor
    · intro h
      exact ((compute_two_lists_mem_inter hrows).mp h).2.2 he
    · intro h
      exact ((compute_two_lists_mem_exp hrows).mp h).2.2 he

/-- Witness for C4: with one core-sourced and one expanded-sourced match
on the same rule, the group is in the Intersection list. -/
theorem C4_two_list_classification_witness :
    w4g ∈ build_groups [] w4rows ∧
    ((w4g.core_hits ≠ [] ∧ w4g.expanded_hits ≠ []) ↔
      w4g ∈ (compute_two_lists [] 1 42 w4rows).intersection) :=
  ⟨by decide, (C4_two_list_classification [] 1 42 w4rows w4g (by decide)).1⟩

/-- C10: `total_unique_items` counts the distinct rule identity keys among
the run's match rows (groups with only core-sourced matches included), so
`intersection + expanded_only ≤ total_unique_items`, with strict
inequality exactly when some group has core-sourced matches only. -/
theorem C10_total_unique_items (usage_map : List UsageReq) (tid rid : ℕ)
    (rows : List (MatrixMatch × MatrixRule)) (hrows : rows ≠ []) :
    (compute_two_lists usage_map tid rid rows).counts.total_unique_items =
      (dedupKeepFirst (rows.map (fun rc => get_item_key rc.2))).length ∧
    (compute_two_lists usage_map tid rid rows).counts.intersection +
        (compute_two_lists usage_map tid rid rows).counts.expanded_only ≤
      (compute_two_lists usage_map tid rid rows).counts.total_unique_items ∧
    ((compute_two_lists usage_map tid rid rows).counts.intersection +
        (compute_two_lists usage_map tid rid rows).counts.expanded_only <
      (compute_two_lists usage_map tid rid rows).counts.total_unique_items ↔
      ∃ g ∈ build_groups usage_map rows,
        g.core_hits ≠ [] ∧ g.expanded_hits = []) := by
  simp only [compute_two_lists, if_neg hrows]
  have hsplit := count_split (build_groups usage_map rows)
  have hlen1 := List.length_insertionSort group_le
    ((build_groups usage_map rows).filter
      (fun g => g.core_hits ≠ [] ∧ g.expanded_hits ≠ []))
  have hlen2 := List.length_insertionSort group_le
    ((build_groups usage_map rows).filter
      (fun g => g.core_hits = [] ∧ g.expanded_hits ≠ []))
  refine ⟨?_, ?_, ?_⟩
  · rw [build_groups, List.length_map]
  · rw [hlen1, hlen2]
    omega
  · rw [hlen1, hlen2]
    constructor
    · intro hlt
      have h0 : 0 < ((build_groups usage_map rows).filter
          (fun g => g.expanded_hits = [])).length := by omega
      obtain ⟨g, hgmem⟩ := List.exists_mem_of_length_pos h0
      have hgm := List.mem_filter.mp hgmem
      have hge : g.expanded_hits = [] := by simpa using hgm.2
      have hco : g.core_hits ≠ [] := by
        rcases (build_groups_mem_spec hgm.1).2.2 with h | h
        · exact h
        · exact absurd hge h
      exact ⟨g, hgm.1, hco, hge⟩
    · rintro ⟨g, hgmem, hcore, hexp⟩
      have hgf : g ∈ (build_groups usage_map rows).filter
          (fun g => g.expanded_hits = []) :=
        List.mem_filter.mpr ⟨hgmem, by simp [hexp]⟩
      have h0 : 0 < ((build_groups usage_map rows).filter
          (fun g => g.expanded_hits = [])).length :=
        List.length_pos.mpr (List.ne_nil_of_mem hgf)
      omega

/-- Witness for C10: the counts identity at a concrete non-empty run. -/
theorem C10_total_unique_items_witness :
    w4rows ≠ [] ∧
    (compute_two_lists [] 1 42 w4rows).counts.total_unique_items =
      (dedupKeepFirst (w4rows.map (fun rc => get_item_key rc.2))).length :=
  ⟨by decide, (C10_total_unique_items [] 1 42 w4rows (by decide)).1⟩


/-- C1 under test (counterexample): with a non-empty corpus and an empty
similarity search result, the fallback row is persisted with similarity
0.0 but with `why = "faiss_embedding_search"` — the very same provenance
label a genuine similarity match receives — so a fallback sample is *not*
tagged with a distinct label and callers cannot distinguish the two by
tag.  The first list is the fallback output (score 0), the second a real
search output (score 1); their `why` tags coincide. -/
theorem C1_counterexample :
    (retrieve_rows_for_usage (fun _ => []) [w1p] 5 3 w1u).map
        (fun r => (r.score, r.why)) =
      [((0 : ℚ), str "faiss_embedding_search")] ∧
    (retrieve_rows_for_usage (fun _ => [(w1p, 1)]) [w1p] 5 3 w1u).map
        (fun r => (r.score, r.why)) =
      [((1 : ℚ), str "faiss_embedding_search")] ∧
    ((retrieve_rows_for_usage (fun _ => []) [w1p] 5 3 w1u).head?.map
        (fun r => r.why) =
      (retrieve_rows_for_usage (fun _ => [(w1p, 1)]) [w1p] 5 3 w1u).head?.map
        (fun r => r.why)) :=
  ⟨rfl, rfl, rfl⟩

/-- C1 (amended): when the similarity search returns nothing (empty index,
empty corpus or no hits), retrieval degrades to a fixed-size sample of the
corpus (at most `top_k` rows) with similarity 0.0 and never raises — an
empty corpus yields an empty row list — but every fallback row carries the
same `why` label (`"faiss_embedding_search"`) as a real similarity match,
not a distinct one. -/
theorem C1_retrieval_fallback (search : Str → List (Patent × ℚ))
    (corpus : List Patent) (top_k run_id : ℕ) (u : UsageReq)
    (hq : pyStrip u.text ≠ []) (hs : search (pyStrip u.text) = []) :
    retrieve_rows_for_usage search corpus top_k run_id u =
      (corpus.take top_k).map (fun p =>
        { ai_run_id := run_id, usage_requirement_id := u.id, patent_id := p.id,
          score := 0, why := str "faiss_embedding_search" }) ∧
    (retrieve_rows_for_usage search corpus top_k run_id u).length ≤ top_k ∧
    (∀ r ∈ retrieve_rows_for_usage search corpus top_k run_id u,
      r.score = 0 ∧ r.why = str "faiss_embedding_search") ∧
    (corpus = [] → retrieve_rows_for_usage search corpus top_k run_id u = []) := by
  have h1 : retrieve_rows_for_usage search corpus top_k run_id u =
      (corpus.take top_k).map (fun p =>
        { ai_run_id := run_id, usage_requirement_id := u.id, patent_id := p.id,
          score := 0, why := str "faiss_embedding_search" }) := by
    simp only [retrieve_rows_for_usage]
    rw [if_neg hq, hs, if_pos rfl, List.map_map]
    rfl
  refine ⟨h1, ?_, ?_, ?_⟩
  · rw [h1, List.length_map, List.length_take]
    exact min_le_left _ _
  · intro r hr
    rw [h1] at hr
    obtain ⟨p, _, hp⟩ := List.mem_map.mp hr
    exact ⟨by rw [← hp], by rw [← hp]⟩
  · intro hc
    rw [h1, hc]
    simp

/-- Witness for C1 (amended): the fallback hypotheses hold at a concrete
usage requirement and one-patent corpus. -/
theorem C1_retrieval_fallback_witness :
    pyStrip w1u.text ≠ [] ∧
    (∀ r ∈ retrieve_rows_for_usage (fun _ => []) [w1p] 5 3 w1u,
      r.score = 0 ∧ r.why = str "faiss_embedding_search") :=
  ⟨by decide,
   (C1_retrieval_fallback (fun _ => []) [w1p] 5 3 w1u (by decide) rfl).2.2.1⟩

/-- C7: on stage failure `execute_step` re-raises the error, keeps the
pre-stage store (the stage's writes are rolled back), and separately
commits the run row marked `failed` with the truncated error message and a
finish timestamp; on success the stage's writes and the `success` marker
land in the same final state. -/
theorem C7_run_ledger (σ ρ : Type) (step_fn : σ → ℕ → Except Str (σ × ρ))
    (tid : ℕ) (run_type : Str) (st : PipeState σ) (rid now₀ now₁ : ℕ)
    (hfresh : ∀ r ∈ st.runs, r.id ≠ rid) :
    (∀ e, step_fn st.store rid = .error e →
      (execute_step step_fn tid run_type st rid now₀ now₁).1 = .error e ∧
      (execute_step step_fn tid run_type st rid now₀ now₁).2.store = st.store ∧
      (execute_step step_fn tid run_type st rid now₀ now₁).2.runs =
        st.runs ++
          [{ id := rid
             transaction_id := tid
             run_type := run_type
             status := str "failed"
             error := some (e.take 8000)
             started_at := now₀
             finished_at := some now₁ }]) ∧
    (∀ s1 res, step_fn st.store rid = .ok (s1, res) →
      (execute_step step_fn tid run_type st rid now₀ now₁).1 = .ok (rid, res) ∧
      (execute_step step_fn tid run_type st rid now₀ now₁).2.store = s1 ∧
      (execute_step step_fn tid run_type st rid now₀ now₁).2.runs =
        st.runs ++
          [{ id := rid
             transaction_id := tid
             run_type := run_type
             status := str "success"
             error := none
             started_at := now₀
             finished_at := some now₁ }]) := by
  have hmap : ∀ f : RunRec → RunRec,
      set_run (st.runs ++
        [{ id := rid
           transaction_id := tid
           run_type := run_type
           status := str "running"
           error := none
           started_at := now₀
           finished_at := none }]) rid f =
      st.runs ++
        [f { id := rid
             transaction_id := tid
             run_type := run_type
             status := str "running"
             error := none
             started_at := now₀
             finished_at := none }] := by
    intro f
    rw [set_run, List.map_append]
    congr 1
    · exact map_eq_self_of (fun r hr => if_neg (hfresh r hr))
    · simp
  constructor
  · intro e he
    simp only [execute_step, he, hmap]
    exact ⟨by trivial, by trivial, by trivial⟩
  · intro s1 res he
    simp only [execute_step, he, hmap]
    exact ⟨by trivial, by trivial, by trivial⟩

/-- Witness for C7: a failing and a succeeding stage function at a
concrete empty ledger. -/
theorem C7_run_ledger_witness :
    (execute_step (fun (_ : ℕ) (_ : ℕ) =>
        (Except.error (str "boom") : Except Str (ℕ × ℕ))) 1
        (str "matrix_match") ⟨[], 0⟩ 1 10 11).1 = .error (str "boom") ∧
    (execute_step (fun (s : ℕ) (_ : ℕ) =>
        (Except.ok (s + 1, 7) : Except Str (ℕ × ℕ))) 1
        (str "matrix_match") ⟨[], 0⟩ 1 10 11).2.store = 0 + 1 :=
  ⟨((C7_run_ledger ℕ ℕ _ 1 (str "matrix_match") ⟨[], 0⟩ 1 10 11
      (by simp)).1 (str "boom") rfl).1,
   ((C7_run_ledger ℕ ℕ _ 1 (str "matrix_match") ⟨[], 0⟩ 1 10 11
      (by simp)).2 (0 + 1) 7 rfl).2.1⟩

end AIV
